import Mathlib

/-!
Verification of the BlockShelf inventory application core.

This file gives a shallow embedding, in Lean, of the data model and the
operations of the BlockShelf application (a Django inventory tracker):
inventory items and their validation (`inventory/models.py`), public share
links and the public share gate (`inventory/models.py`,
`inventory/views/sharing.py`), the collaboration/invite state machine
(`inventory/views/sharing.py`), owner resolution
(`inventory/views/helpers.py`), the lookup rate limiter and the bulk
enrichment batch endpoint (`inventory/views/api.py`).

Database tables are embedded as Lean lists of rows; Django's
`save`/`update_or_create`/`get_object_or_404` calls become explicit list
transformations; timestamps are natural numbers; network calls of the
enrichment pipeline are oracle function parameters.
-/

namespace BlockShelf

/-! ## Generic list lemmas (keyed rows, counting, updates) -/

section ListLemmas

variable {α : Type}

/-- Counting after a pointwise map that can only lose the property. -/
theorem countP_map_le (p : α → Bool) (f : α → α) (l : List α)
    (h : ∀ x, p (f x) = true → p x = true) :
    (l.map f).countP p ≤ l.countP p := by
  rw [List.countP_map]
  exact List.countP_mono_left (fun x _ hx => h x hx)

/-- Counting after a pointwise map that preserves the property. -/
theorem countP_map_eq (p : α → Bool) (f : α → α) (l : List α)
    (h : ∀ x, p (f x) = p x) :
    (l.map f).countP p = l.countP p := by
  rw [List.countP_map]
  refine Nat.le_antisymm ?_ ?_
  · exact List.countP_mono_left (fun x _ hx => by
      have := h x
      simpa [Function.comp, this] using hx)
  · exact List.countP_mono_left (fun x _ hx => by
      simp [Function.comp, h x, hx])

/-- Counting a filtered list never exceeds counting the whole list. -/
theorem countP_filter_le (p q : α → Bool) (l : List α) :
    (l.filter q).countP p ≤ l.countP p := by
  rw [List.countP_filter]
  exact List.countP_mono_left (fun x _ hx => by
    exact (Bool.and_eq_true _ _ ▸ hx).1)

/-- Lemma: `find?` commutes with a map that does not change the predicate. -/
theorem find?_map_comm (p : α → Bool) (f : α → α) (l : List α)
    (h : ∀ x, p (f x) = p x) :
    (l.map f).find? p = (l.find? p).map f := by
  induction l with
  | nil => simp
  | cons a t ih =>
    simp only [List.map_cons, List.find?_cons]
    by_cases hpa : p a = true
    · simp [h a, hpa]
    · simp only [Bool.not_eq_true] at hpa
      simp [h a, hpa, ih]

/-- Lemma: `filter` commutes with a map that does not change the predicate. -/
theorem filter_map_comm (p : α → Bool) (f : α → α) (l : List α)
    (h : ∀ x, p (f x) = p x) :
    (l.map f).filter p = (l.filter p).map f := by
  rw [List.filter_map]
  congr 1
  exact List.filter_congr (fun x _ => by simp [Function.comp, h x])

/-- In a list whose keys are distinct, the key determines the row. -/
theorem key_inj (key : α → Nat) (l : List α)
    (hN : (l.map key).Nodup) {x y : α}
    (hx : x ∈ l) (hy : y ∈ l) (hk : key x = key y) : x = y := by
  induction l with
  | nil => cases hx
  | cons a t ih =>
    simp only [List.map_cons, List.nodup_cons] at hN
    rcases List.mem_cons.mp hx with rfl | hx'
    · rcases List.mem_cons.mp hy with rfl | hy'
      · rfl
      · exact absurd (hk ▸ List.mem_map_of_mem key hy') hN.1
    · rcases List.mem_cons.mp hy with rfl | hy'
      · exact absurd (hk ▸ List.mem_map_of_mem key hx') hN.1
      · exact ih hN.2 hx' hy'

/-- With distinct keys, searching for a member's key finds that member. -/
theorem find?_key_of_nodup (key : α → Nat) (l : List α)
    (hN : (l.map key).Nodup) {t : α} (ht : t ∈ l) :
    l.find? (fun y => key y == key t) = some t := by
  induction l with
  | nil => cases ht
  | cons a s ih =>
    simp only [List.map_cons, List.nodup_cons] at hN
    rcases List.mem_cons.mp ht with rfl | ht'
    · simp [List.find?_cons]
    · have hka : key a ≠ key t := by
        intro heq
        exact hN.1 (heq ▸ List.mem_map_of_mem key ht')
      have : (key a == key t) = false := by
        simpa using hka
      simp [List.find?_cons, this, ih hN.2 ht']

/-- Updating the row with a given key, then looking that key up, yields
the updated row (keys distinct, the update preserves keys). -/
theorem find?_map_upd (key : α → Nat) (f : α → α) (l : List α)
    (hN : (l.map key).Nodup) {t : α} (ht : t ∈ l)
    (hkey : ∀ x, key (f x) = key x) :
    (l.map f).find? (fun y => key y == key t) = some (f t) := by
  have h := find?_map_comm (fun y => key y == key t) f l (fun x => by simp [hkey x])
  rw [h, find?_key_of_nodup key l hN ht]
  rfl

/-- Counting after updating exactly the row whose key matches a member
`t` (keys distinct): the member's contribution is replaced. -/
theorem countP_map_upd (key : α → Nat) (p : α → Bool) (g : α → α)
    (l : List α) (hN : (l.map key).Nodup) {t : α} (ht : t ∈ l) :
    (l.map (fun x => if key x == key t then g x else x)).countP p
      = l.countP p - (if p t then 1 else 0) + (if p (g t) then 1 else 0) := by
  induction l with
  | nil => cases ht
  | cons a s ih =>
    simp only [List.map_cons, List.nodup_cons] at hN
    rcases List.mem_cons.mp ht with rfl | ht'
    · have hs : ∀ x ∈ s, (key x == key t) = false := by
        intro x hx
        have : key x ≠ key t := by
          intro hkeq
          exact hN.1 (hkeq ▸ List.mem_map_of_mem key hx)
        simpa using this
      have hmap : s.map (fun x => if key x == key t then g x else x) = s := by
        calc s.map (fun x => if key x == key t then g x else x)
            = s.map id := List.map_congr_left (by
              intro x hx
              simp [hs x hx])
          _ = s := List.map_id s
      simp only [List.map_cons, beq_self_eq_true, if_true, hmap,
        List.countP_cons]
      by_cases hpt : p t = true <;> by_cases hpg : p (g t) = true <;>
        simp only [hpt, hpg, if_true, if_false] <;> omega
    · have hka : (key a == key t) = false := by
        have : key a ≠ key t := by
          intro hkeq
          exact hN.1 (hkeq ▸ List.mem_map_of_mem key ht')
        simpa using this
      have hcnt : (if p t then 1 else 0) ≤ s.countP p := by
        by_cases hp : p t = true
        · simpa [hp] using List.countP_pos_iff.mpr ⟨t, ht', hp⟩
        · simp [hp]
      simp only [List.map_cons, hka, Bool.false_eq_true, if_false,
        List.countP_cons, ih hN.2 ht']
      by_cases hpa : p a = true <;> by_cases hpt : p t = true <;>
        by_cases hpg : p (g t) = true <;>
        simp only [hpa, hpt, hpg, if_true, if_false] at hcnt ⊢ <;> omega

end ListLemmas

/-! ## Python string primitives

`str.strip()` and `str.lower()`, implemented over the character list so
that they compute by kernel reduction (Lean's own `String.trim` and
`String.toLower` are `@[extern]`-backed and do not). -/

/-- Embeds `str.lower()`. -/
def strLower (s : String) : String := String.mk (s.data.map Char.toLower)

/-- Embeds `str.strip()`. -/
def pyStrip (s : String) : String :=
  String.mk (((s.data.dropWhile Char.isWhitespace).reverse.dropWhile
    Char.isWhitespace).reverse)

/-! ## Inventory items (`inventory/models.py`, class `InventoryItem`) -/

/-- A row of the `InventoryItem` table.  Quantities are Django
`IntegerField`s, so they are embedded as integers. -/
structure InventoryItem where
  id : Nat
  user : Nat
  name : String
  part_id : String
  color : String
  quantity_total : Int
  quantity_used : Int
  storage_location : String
  image_url : String
deriving Repr, DecidableEq

/-- Embeds `InventoryItem.clean`: business-rule validation.  Returns the name of
the offending field, or `none` when the row is valid.  Field values are
always present in the embedding, so the `is not None` guards of the
Python code are satisfied. -/
def InventoryItem.clean (it : InventoryItem) : Option String :=
  if it.quantity_used > it.quantity_total then some "quantity_used"
  else if it.quantity_total < 0 then some "quantity_total"
  else if it.quantity_used < 0 then some "quantity_used"
  else none

/-- Django's `full_clean` as invoked by `InventoryItem.save`: field
validators (`MinValueValidator(0)` on both quantities), then `clean()`,
then the unique-constraint check on `(user, part_id, color)` against the
other rows of the table. -/
def InventoryItem.full_clean (db : List InventoryItem) (it : InventoryItem) :
    Option String :=
  if it.quantity_total < 0 then some "quantity_total"
  else if it.quantity_used < 0 then some "quantity_used"
  else
    match it.clean with
    | some f => some f
    | none =>
        if db.any (fun x => x.id != it.id && x.user == it.user
            && x.part_id == it.part_id && x.color == it.color)
        then some "unique_user_part_color"
        else none

/-- Embeds `InventoryItem.save`: runs `full_clean` first and persists only when
validation passes (update-in-place when a row with the same id exists,
insert otherwise).  On a validation error the table is unchanged. -/
def InventoryItem.save (db : List InventoryItem) (it : InventoryItem) :
    Option String × List InventoryItem :=
  match InventoryItem.full_clean db it with
  | some e => (some e, db)
  | none =>
      if db.any (fun x => x.id == it.id) then
        (none, db.map (fun x => if x.id == it.id then it else x))
      else
        (none, db ++ [it])

/-- A validated item satisfies the quantity invariant. -/
theorem full_clean_none_le {db : List InventoryItem} {it : InventoryItem}
    (h : InventoryItem.full_clean db it = none) :
    it.quantity_used ≤ it.quantity_total := by
  by_contra hgt
  push_neg at hgt
  simp only [InventoryItem.full_clean, InventoryItem.clean] at h
  split_ifs at h

/-- A quantity violation always fails validation. -/
theorem full_clean_isSome_of_violation {db : List InventoryItem}
    {it : InventoryItem} (hgt : it.quantity_used > it.quantity_total) :
    (InventoryItem.full_clean db it).isSome = true := by
  simp only [InventoryItem.full_clean, InventoryItem.clean]
  split_ifs <;> simp_all

/-- C1: For every inventory item, after every successful write through
`InventoryItem.save` the invariant `quantity_used ≤ quantity_total` holds
for all stored rows; a write that would violate it is rejected with a
validation error before anything is persisted, leaving the table (and so
the stored item) unchanged. -/
theorem save_preserves_quantity_invariant
    (db : List InventoryItem) (it : InventoryItem)
    (h : ∀ x ∈ db, x.quantity_used ≤ x.quantity_total) :
    (∀ x ∈ (InventoryItem.save db it).2, x.quantity_used ≤ x.quantity_total)
    ∧ (it.quantity_used > it.quantity_total →
        (InventoryItem.save db it).1.isSome = true
        ∧ (InventoryItem.save db it).2 = db) := by
  cases hfc : InventoryItem.full_clean db it with
  | some e =>
    refine ⟨?_, fun _ => ?_⟩
    · intro x hx
      simp only [InventoryItem.save, hfc] at hx
      exact h x hx
    · simp [InventoryItem.save, hfc]
  | none =>
    have hle := full_clean_none_le hfc
    refine ⟨?_, fun hgt => absurd hle (not_le.mpr hgt)⟩
    intro x hx
    simp only [InventoryItem.save, hfc] at hx
    by_cases hany : db.any (fun x => x.id == it.id) = true
    · simp only [hany, if_true] at hx
      rcases List.mem_map.mp hx with ⟨y, hy, rfl⟩
      by_cases hid : (y.id == it.id) = true
      · simpa [hid] using hle
      · simp only [Bool.not_eq_true] at hid
        simp only [hid, Bool.false_eq_true, if_false]
        exact h y hy
    · simp only [Bool.not_eq_true] at hany
      simp only [hany, Bool.false_eq_true, if_false] at hx
      rcases List.mem_append.mp hx with hx' | hx'
      · exact h x hx'
      · rcases List.mem_singleton.mp hx' with rfl
        exact hle

/-- Witness for C1: saving an item with `quantity_used = 15 >
quantity_total = 10` into an empty table is rejected and persists
nothing. -/
theorem save_preserves_quantity_invariant_witness :
    (∀ x ∈ (InventoryItem.save []
        ⟨1, 1, "Brick", "3001", "Red", 10, 15, "", ""⟩).2,
        x.quantity_used ≤ x.quantity_total)
    ∧ ((15 : Int) > 10 →
        (InventoryItem.save []
          ⟨1, 1, "Brick", "3001", "Red", 10, 15, "", ""⟩).1.isSome = true
        ∧ (InventoryItem.save []
          ⟨1, 1, "Brick", "3001", "Red", 10, 15, "", ""⟩).2 = []) :=
  save_preserves_quantity_invariant []
    ⟨1, 1, "Brick", "3001", "Red", 10, 15, "", ""⟩ (by simp)

/-! ## Share links (`inventory/models.py`, class `InventoryShare`;
`inventory/views/sharing.py`, `create_share_link` / `shared_inventory`) -/

/-- A row of the `InventoryShare` table.  Timestamps are naturals;
`expires_at`, `revoked_at`, `last_accessed_at` and `max_access_count` are
nullable. -/
structure InventoryShare where
  id : Nat
  user : Nat
  token : String
  is_active : Bool
  expires_at : Option Nat
  revoked_at : Option Nat
  access_count : Nat
  last_accessed_at : Option Nat
  max_access_count : Option Nat
deriving Repr, DecidableEq

/-- Embeds `InventoryShare.is_expired`, with Python truthiness made explicit:
`self.expires_at` is truthy iff non-null, and `self.max_access_count` is
truthy iff non-null and non-zero. -/
def InventoryShare.is_expired (s : InventoryShare) (now : Nat) : Bool :=
  if s.is_active = false then true
  else if (match s.expires_at with
           | some e => decide (now > e)
           | none => false) then true
  else if (match s.max_access_count with
           | some m => decide (m ≠ 0) && decide (s.access_count ≥ m)
           | none => false) then true
  else false

/-- Embeds `InventoryShare.revoke`. -/
def InventoryShare.revoke (s : InventoryShare) (now : Nat) : InventoryShare :=
  { s with is_active := false, revoked_at := some now }

/-- Embeds `InventoryShare.record_access`: atomic increment plus timestamp. -/
def InventoryShare.record_access (s : InventoryShare) (now : Nat) :
    InventoryShare :=
  { s with access_count := s.access_count + 1, last_accessed_at := some now }

/-- Update the share row with primary key `pk` in place. -/
def updateShare (shares : List InventoryShare) (pk : Nat)
    (f : InventoryShare → InventoryShare) : List InventoryShare :=
  shares.map (fun x => if x.id == pk then f x else x)

/-- Outcome of the public share view as sent to the client.  The whole
view body runs inside `try: ... except Exception`, so the `Http404`
raised by `get_object_or_404` for a token with no active row is caught
by that handler, which renders `errors/500.html` with status 500
(`serverError`); an expired row renders the expired page with status
410; otherwise the inventory page is served. -/
inductive ShareView where
  | serverError
  | expired (owner : Nat)
  | ok (owner : Nat)
deriving Repr, DecidableEq

/-- Embeds `shared_inventory` (the public share gate): look the token up
among *active* rows (`get_object_or_404(InventoryShare, token=token,
is_active=True)`) — a miss raises `Http404`, which the view's blanket
`except Exception` handler turns into the 500 error page; if the row
found is expired, revoke it and answer 410; otherwise record the access
and serve the owner's items. -/
def shared_inventory (shares : List InventoryShare) (tok : String)
    (now : Nat) : ShareView × List InventoryShare :=
  match shares.find? (fun s => s.token == tok && s.is_active) with
  | none => (.serverError, shares)
  | some share =>
      if share.is_expired now then
        (.expired share.user, updateShare shares share.id (fun s => s.revoke now))
      else
        (.ok share.user, updateShare shares share.id (fun s => s.record_access now))

/-- The lookup key of `update_or_create` in `create_share_link`:
`(user=u, is_active=True)`. -/
def activeFor (u : Nat) (r : InventoryShare) : Bool :=
  r.user == u && r.is_active

/-- Embeds `create_share_link`: `update_or_create(user=u, is_active=True,
defaults={token: t})`.  No active row: insert one.  Exactly one: replace
its token.  More than one: `MultipleObjectsReturned` is raised and the
view's exception handler leaves the table unchanged. -/
def freshShare (u : Nat) (tok : String) (fresh : Nat) : InventoryShare :=
  { id := fresh, user := u, token := tok, is_active := true,
    expires_at := none, revoked_at := none, access_count := 0,
    last_accessed_at := none, max_access_count := none }

def create_share_link (shares : List InventoryShare) (u : Nat) (tok : String)
    (fresh : Nat) : List InventoryShare :=
  match shares.filter (activeFor u) with
  | [] => shares ++ [freshShare u tok fresh]
  | [r] => shares.map (fun x => if x.id == r.id then { x with token := tok } else x)
  | _ => shares

/-- C9: `max_access_count = 0` is falsy in the expiry check, so it
means "no access limit": an active share whose expiry date has not
passed is never expired, however large its access count. -/
theorem max_access_count_zero_is_unlimited
    (s : InventoryShare) (now : Nat)
    (hact : s.is_active = true)
    (hmax : s.max_access_count = some 0)
    (hexp : ∀ e, s.expires_at = some e → ¬ now > e) :
    s.is_expired now = false := by
  unfold InventoryShare.is_expired
  rw [hact, hmax]
  cases hxe : s.expires_at with
  | none => simp
  | some e => simp [hexp e hxe]

/-- Witness for C9: an active, never-expiring share with
`max_access_count = 0` and one million recorded accesses is not
expired. -/
theorem max_access_count_zero_is_unlimited_witness :
    InventoryShare.is_expired ⟨1, 7, "t", true, none, none, 1000000, none, some 0⟩ 99
      = false :=
  max_access_count_zero_is_unlimited
    ⟨1, 7, "t", true, none, none, 1000000, none, some 0⟩ 99
    rfl rfl (by intro e he; cases he)

/-- Counterexample to C5 as stated: an *inactive* share row (one of the
claim's three "detected expired" conditions) is filtered out by the
active-only token lookup; the resulting `Http404` is caught by the
view's `except Exception` handler, which renders the 500 error page —
not the `Expired` result with `revoked_at := now` that the claim
requires — and the row is left unchanged, its `revoked_at` still
null. -/
theorem share_gate_inactive_cex :
    shared_inventory [⟨1, 7, "tok", false, none, none, 0, none, none⟩] "tok" 5
      = (ShareView.serverError, [⟨1, 7, "tok", false, none, none, 0, none, none⟩]) := by
  rfl

/-- C5 (amended): When the token lookup finds an *active* row, the
gate seals expiry: if the row is expired (past `expires_at`, or access
count at/over a non-zero `max_access_count`), it is transitioned to
revoked — `is_active := false`, `revoked_at := now` — and the `Expired`
result is returned; if it is not expired, the access is recorded
(`access_count` incremented) and the inventory is served.  A token with
no active row — unknown, or already inactive — raises `Http404`, which
the view's blanket `except Exception` handler turns into the 500 error
page, with every row left untouched. -/
theorem share_gate_seals_expiry
    (shares : List InventoryShare) (tok : String) (now : Nat)
    (hN : (shares.map (fun s => s.id)).Nodup) :
    (shares.find? (fun s => s.token == tok && s.is_active) = none →
        shared_inventory shares tok now = (ShareView.serverError, shares))
    ∧ ∀ sh, shares.find? (fun s => s.token == tok && s.is_active) = some sh →
      (sh.is_expired now = true →
          (shared_inventory shares tok now).1 = ShareView.expired sh.user
          ∧ (shared_inventory shares tok now).2.find? (fun y => y.id == sh.id)
              = some { sh with is_active := false, revoked_at := some now })
      ∧ (sh.is_expired now = false →
          (shared_inventory shares tok now).1 = ShareView.ok sh.user
          ∧ (shared_inventory shares tok now).2.find? (fun y => y.id == sh.id)
              = some { sh with access_count := sh.access_count + 1,
                               last_accessed_at := some now }) := by
  constructor
  · intro hnone
    simp [shared_inventory, hnone]
  intro sh hf
  have hmem : sh ∈ shares := List.mem_of_find?_eq_some hf
  constructor
  · intro hexp
    have heq : shared_inventory shares tok now
        = (ShareView.expired sh.user,
           updateShare shares sh.id (fun s => s.revoke now)) := by
      simp [shared_inventory, hf, hexp]
    refine ⟨by rw [heq], ?_⟩
    rw [heq]
    have := find?_map_upd (fun s : InventoryShare => s.id)
      (fun x => if x.id == sh.id then x.revoke now else x) shares hN hmem
      (fun x => by by_cases hx : (x.id == sh.id) = true <;>
        simp [hx, InventoryShare.revoke])
    simpa [updateShare, InventoryShare.revoke] using this
  · intro hexp
    have heq : shared_inventory shares tok now
        = (ShareView.ok sh.user,
           updateShare shares sh.id (fun s => s.record_access now)) := by
      simp [shared_inventory, hf, hexp]
    refine ⟨by rw [heq], ?_⟩
    rw [heq]
    have := find?_map_upd (fun s : InventoryShare => s.id)
      (fun x => if x.id == sh.id then x.record_access now else x) shares hN hmem
      (fun x => by by_cases hx : (x.id == sh.id) = true <;>
        simp [hx, InventoryShare.record_access])
    simpa [updateShare, InventoryShare.record_access] using this

/-- Witness for C5 (amended): a share with `max_access_count = 1`
accessed twice.  The first access succeeds and increments the count to
1; the second detects expiry, flips the row to `is_active = false` with
`revoked_at` set, and returns the expired result; a third access, the
row now being inactive, gets the 500 error page with the row
untouched. -/
theorem share_gate_seals_expiry_witness :
    ((shared_inventory [⟨1, 7, "t", true, none, none, 0, none, some 1⟩] "t" 10).1
        = ShareView.ok 7
      ∧ (shared_inventory [⟨1, 7, "t", true, none, none, 0, none, some 1⟩]
          "t" 10).2.find? (fun y => y.id == 1)
        = some ⟨1, 7, "t", true, none, none, 1, some 10, some 1⟩)
    ∧ ((shared_inventory [⟨1, 7, "t", true, none, none, 1, some 10, some 1⟩] "t" 20).1
        = ShareView.expired 7
      ∧ (shared_inventory [⟨1, 7, "t", true, none, none, 1, some 10, some 1⟩]
          "t" 20).2.find? (fun y => y.id == 1)
        = some ⟨1, 7, "t", false, none, some 20, 1, some 10, some 1⟩)
    ∧ shared_inventory [⟨1, 7, "t", false, none, some 20, 1, some 10, some 1⟩] "t" 30
        = (ShareView.serverError,
           [⟨1, 7, "t", false, none, some 20, 1, some 10, some 1⟩]) := by
  refine ⟨?_, ?_, ?_⟩
  · exact ((share_gate_seals_expiry
      [⟨1, 7, "t", true, none, none, 0, none, some 1⟩] "t" 10 (by simp)).2
      ⟨1, 7, "t", true, none, none, 0, none, some 1⟩ rfl).2 rfl
  · exact ((share_gate_seals_expiry
      [⟨1, 7, "t", true, none, none, 1, some 10, some 1⟩] "t" 20 (by simp)).2
      ⟨1, 7, "t", true, none, none, 1, some 10, some 1⟩ rfl).1 rfl
  · exact (share_gate_seals_expiry
      [⟨1, 7, "t", false, none, some 20, 1, some 10, some 1⟩] "t" 30 (by simp)).1 rfl

/-- Unfolding `create_share_link` when no active row exists. -/
theorem create_share_link_of_none {shares : List InventoryShare} {u : Nat}
    {tok : String} {fresh : Nat}
    (hfil : shares.filter (activeFor u) = []) :
    create_share_link shares u tok fresh = shares ++ [freshShare u tok fresh] := by
  unfold create_share_link
  rw [hfil]

/-- Unfolding `create_share_link` when exactly one active row exists. -/
theorem create_share_link_of_one {shares : List InventoryShare} {u : Nat}
    {tok : String} {fresh : Nat} {r : InventoryShare}
    (hfil : shares.filter (activeFor u) = [r]) :
    create_share_link shares u tok fresh
      = shares.map (fun x => if x.id == r.id then { x with token := tok }
          else x) := by
  unfold create_share_link
  rw [hfil]

/-- C8: `create_share_link` is an upsert keyed by
`(user, is_active=True)`: starting from a table with at most one active
row for the user, calling it twice yields exactly one active row for
that user, the second call adds no row, and the single active row
carries the second token. -/
theorem create_share_link_upsert
    (shares : List InventoryShare) (u : Nat) (t1 t2 : String) (f1 f2 : Nat)
    (h : (shares.filter (activeFor u)).length ≤ 1) :
    ((create_share_link (create_share_link shares u t1 f1) u t2 f2).filter
        (activeFor u)).length = 1
    ∧ (create_share_link (create_share_link shares u t1 f1) u t2 f2).length
        = (create_share_link shares u t1 f1).length
    ∧ ∀ r ∈ create_share_link (create_share_link shares u t1 f1) u t2 f2,
        r.user = u → r.is_active = true → r.token = t2 := by
  have hpres : ∀ (tk : String) (pk : Nat) (x : InventoryShare),
      activeFor u (if x.id == pk then { x with token := tk } else x)
        = activeFor u x := by
    intro tk pk x
    by_cases hx : (x.id == pk) = true <;> simp [hx, activeFor]
  cases hfil : shares.filter (activeFor u) with
  | nil =>
    have h1 : create_share_link shares u t1 f1 = shares ++ [freshShare u t1 f1] :=
      create_share_link_of_none hfil
    have hfil1 : (create_share_link shares u t1 f1).filter (activeFor u)
        = [freshShare u t1 f1] := by
      rw [h1, List.filter_append, hfil]
      simp [activeFor, freshShare]
    have h2 : create_share_link (create_share_link shares u t1 f1) u t2 f2
        = (create_share_link shares u t1 f1).map
            (fun x => if x.id == (freshShare u t1 f1).id
              then { x with token := t2 } else x) :=
      create_share_link_of_one hfil1
    have hfil2 : (create_share_link (create_share_link shares u t1 f1) u t2
        f2).filter (activeFor u) = [{ freshShare u t1 f1 with token := t2 }] := by
      rw [h2, filter_map_comm _ _ _ (hpres t2 (freshShare u t1 f1).id), hfil1]
      simp
    refine ⟨by rw [hfil2]; rfl, by rw [h2, List.length_map], ?_⟩
    intro r hr hu ha
    have hp : activeFor u r = true := by simp [activeFor, hu, ha]
    have hmem : r ∈ (create_share_link (create_share_link shares u t1 f1) u t2
        f2).filter (activeFor u) := List.mem_filter.mpr ⟨hr, hp⟩
    rw [hfil2] at hmem
    rw [List.mem_singleton.mp hmem]
  | cons r0 tail =>
    cases tail with
    | cons r1 tail2 =>
        rw [hfil] at h
        simp at h
    | nil =>
      have h1 : create_share_link shares u t1 f1
          = shares.map (fun x => if x.id == r0.id then { x with token := t1 }
              else x) :=
        create_share_link_of_one hfil
      have hfil1 : (create_share_link shares u t1 f1).filter (activeFor u)
          = [{ r0 with token := t1 }] := by
        rw [h1, filter_map_comm _ _ _ (hpres t1 r0.id), hfil]
        simp
      have h2 : create_share_link (create_share_link shares u t1 f1) u t2 f2
          = (create_share_link shares u t1 f1).map
              (fun x => if x.id == ({ r0 with token := t1 } :
                  InventoryShare).id then { x with token := t2 } else x) :=
        create_share_link_of_one hfil1
      have hfil2 : (create_share_link (create_share_link shares u t1 f1) u t2
          f2).filter (activeFor u) = [{ r0 with token := t2 }] := by
        rw [h2, filter_map_comm _ _ _
          (hpres t2 ({ r0 with token := t1 } : InventoryShare).id), hfil1]
        simp
      refine ⟨by rw [hfil2]; rfl, by rw [h2, List.length_map], ?_⟩
      intro r hr hu ha
      have hp : activeFor u r = true := by simp [activeFor, hu, ha]
      have hmem : r ∈ (create_share_link (create_share_link shares u t1 f1) u t2
          f2).filter (activeFor u) := List.mem_filter.mpr ⟨hr, hp⟩
      rw [hfil2] at hmem
      rw [List.mem_singleton.mp hmem]

/-- Witness for C8: two calls on an empty table leave exactly one active
row, carrying the second token. -/
theorem create_share_link_upsert_witness :
    ((create_share_link (create_share_link [] 1 "tokA" 10) 1 "tokB" 11).filter
        (activeFor 1)).length = 1
    ∧ (create_share_link (create_share_link [] 1 "tokA" 10) 1 "tokB" 11).length
        = (create_share_link [] 1 "tokA" 10).length
    ∧ ∀ r ∈ create_share_link (create_share_link [] 1 "tokA" 10) 1 "tokB" 11,
        r.user = 1 → r.is_active = true → r.token = "tokB" :=
  create_share_link_upsert [] 1 "tokA" "tokB" 10 11 (by simp)

/-! ## Collaborations and invites (`inventory/models.py`, class
`InventoryCollab`; `inventory/views/sharing.py`) -/

/-- A row of the `InventoryCollab` table.  A pending invite has
`collaborator = none` and `accepted_at = none`; an accepted collaboration
has both set; a revoked row has `is_active = false`. -/
structure InventoryCollab where
  id : Nat
  owner : Nat
  collaborator : Option Nat
  invited_email : String
  token : String
  can_edit : Bool
  can_delete : Bool
  is_active : Bool
  accepted_at : Option Nat
  revoked_at : Option Nat
deriving Repr, DecidableEq

/-- The rows counted by the one-active-collaboration invariant and
matched by the `existing` query of `accept_invite`: owner `o`,
collaborator `c`, active, accepted. -/
def activeAccepted (o c : Nat) (r : InventoryCollab) : Bool :=
  r.owner == o && r.collaborator == some c && r.is_active
    && r.accepted_at.isSome

/-- Primary keys are auto-assigned: the next free id. -/
def freshCollabId (db : List InventoryCollab) : Nat :=
  (db.map (fun r => r.id)).foldr max 0 + 1

/-- Embeds `create_invite`: reject self-invitation (owner's email, lowercased,
equals the invited email), otherwise insert a pending row with the given
permissions and a random token. -/
def create_invite (db : List InventoryCollab) (owner : Nat)
    (ownerEmail email : String) (ce cd : Bool) (tok : String) :
    List InventoryCollab :=
  let e := strLower (pyStrip email)
  if ownerEmail != "" && strLower ownerEmail == e then db
  else
    db ++ [{ id := freshCollabId db, owner := owner, collaborator := none,
             invited_email := e, token := tok, can_edit := ce,
             can_delete := cd, is_active := true, accepted_at := none,
             revoked_at := none }]

/-- Embeds `accept_invite`: look the token up among active rows; an
already-accepted invite changes nothing (redirect only); the owner cannot
accept; if the acceptor already has an active accepted collaboration with
this owner, the *new* invite's permissions overwrite the existing row's
and the invite is revoked; otherwise the invite row itself transitions
pending → active via `mark_accepted`. -/
def accept_invite (db : List InventoryCollab) (tok : String)
    (acceptor now : Nat) : List InventoryCollab :=
  match db.find? (fun r => r.token == tok && r.is_active) with
  | none => db
  | some invite =>
      if invite.accepted_at.isSome then db
      else if acceptor == invite.owner then db
      else
        match db.find? (activeAccepted invite.owner acceptor) with
        | some existing =>
            let db1 := db.map (fun r => if r.id == existing.id
              then { r with can_edit := invite.can_edit,
                            can_delete := invite.can_delete } else r)
            db1.map (fun r => if r.id == invite.id
              then { r with is_active := false, revoked_at := some now } else r)
        | none =>
            db.map (fun r => if r.id == invite.id
              then { r with collaborator := some acceptor,
                            accepted_at := some now, is_active := true } else r)

/-- Embeds `revoke_invite`: the owner revokes one of their active rows
(`get_object_or_404(pk=pk, owner=request.user, is_active=True)` then
`revoke()`). -/
def revoke_invite (db : List InventoryCollab) (pk actor now : Nat) :
    List InventoryCollab :=
  match db.find? (fun r => r.id == pk && r.owner == actor && r.is_active) with
  | none => db
  | some _ =>
      db.map (fun r => if r.id == pk
        then { r with is_active := false, revoked_at := some now } else r)

/-- Embeds `purge_invite`: the owner hard-deletes one of their rows, but only
when it is already revoked; purging an active row is rejected. -/
def purge_invite (db : List InventoryCollab) (pk actor : Nat) :
    List InventoryCollab :=
  match db.find? (fun r => r.id == pk && r.owner == actor) with
  | none => db
  | some inv =>
      if inv.is_active then db
      else db.filter (fun r => r.id != pk)

/-- Embeds `update_invite`: the owner updates the permission flags of one of
their rows, rejected when the row is revoked. -/
def update_invite (db : List InventoryCollab) (pk actor : Nat)
    (ce cd : Bool) : List InventoryCollab :=
  match db.find? (fun r => r.id == pk && r.owner == actor) with
  | none => db
  | some inv =>
      if inv.is_active = false then db
      else db.map (fun r => if r.id == pk
        then { r with can_edit := ce, can_delete := cd } else r)

/-- One operation of the collaboration state machine. -/
inductive CollabOp where
  | create (owner : Nat) (ownerEmail email : String) (ce cd : Bool) (tok : String)
  | accept (tok : String) (acceptor now : Nat)
  | revokeOp (pk actor now : Nat)
  | purge (pk actor : Nat)
  | updatePerms (pk actor : Nat) (ce cd : Bool)

/-- Apply one operation. -/
def applyCollabOp (db : List InventoryCollab) : CollabOp → List InventoryCollab
  | .create owner oe em ce cd tok => create_invite db owner oe em ce cd tok
  | .accept tok acceptor now => accept_invite db tok acceptor now
  | .revokeOp pk actor now => revoke_invite db pk actor now
  | .purge pk actor => purge_invite db pk actor
  | .updatePerms pk actor ce cd => update_invite db pk actor ce cd

/-- Apply a sequence of operations, oldest first. -/
def applyCollabOps (db : List InventoryCollab) (ops : List CollabOp) :
    List InventoryCollab :=
  ops.foldl applyCollabOp db

/-- The table invariant: at most one active accepted collaboration per
(owner, collaborator) pair. -/
def CollabInvariant (db : List InventoryCollab) : Prop :=
  ∀ o c : Nat, db.countP (activeAccepted o c) ≤ 1

/-- Well-formedness: primary keys are distinct. -/
def CollabWF (db : List InventoryCollab) : Prop :=
  (db.map (fun r => r.id)).Nodup

/-- Every element is bounded by the running maximum. -/
theorem le_foldr_max (l : List Nat) : ∀ x ∈ l, x ≤ l.foldr max 0 := by
  induction l with
  | nil => intro x hx; cases hx
  | cons a t ih =>
    intro x hx
    rcases List.mem_cons.mp hx with rfl | hx'
    · exact Nat.le_max_left _ _
    · exact le_trans (ih x hx') (Nat.le_max_right a _)

/-- A map that preserves the key leaves the key list unchanged. -/
theorem map_key_eq {α : Type} (key : α → Nat) (f : α → α) (l : List α)
    (h : ∀ x, key (f x) = key x) : (l.map f).map key = l.map key := by
  induction l with
  | nil => rfl
  | cons a t ih => simp [h a, ih]

/-- Key-preserving maps preserve well-formedness. -/
theorem CollabWF_map (db : List InventoryCollab)
    (f : InventoryCollab → InventoryCollab)
    (h : ∀ x, (f x).id = x.id) (hWF : CollabWF db) : CollabWF (db.map f) := by
  unfold CollabWF at *
  rw [map_key_eq (fun r => r.id) f db h]
  exact hWF

/-- Every operation of the state machine preserves key distinctness. -/
theorem applyCollabOp_WF (db : List InventoryCollab) (op : CollabOp)
    (hWF : CollabWF db) : CollabWF (applyCollabOp db op) := by
  cases op with
  | create owner oe em ce cd tok =>
    show CollabWF (create_invite db owner oe em ce cd tok)
    unfold create_invite
    by_cases hself : (oe != "" && strLower oe == strLower (pyStrip em)) = true
    · simp only [hself, if_true]
      exact hWF
    · simp only [Bool.not_eq_true] at hself
      simp only [hself, Bool.false_eq_true, if_false]
      unfold CollabWF at *
      rw [List.map_append]
      rw [List.nodup_append]
      refine ⟨hWF, List.nodup_singleton _, ?_⟩
      intro x hx hx'
      simp only [List.map_cons, List.map_nil, List.mem_singleton] at hx'
      subst hx'
      have hle := le_foldr_max (db.map (fun r => r.id)) _ hx
      simp only [freshCollabId] at hle ⊢
      omega
  | accept tok acceptor now =>
    show CollabWF (accept_invite db tok acceptor now)
    unfold accept_invite
    cases hf : db.find? (fun r => r.token == tok && r.is_active) with
    | none => exact hWF
    | some invite =>
      by_cases h1 : invite.accepted_at.isSome = true
      · simp only [h1, if_true]
        exact hWF
      · simp only [Bool.not_eq_true] at h1
        simp only [h1, Bool.false_eq_true, if_false]
        by_cases h2 : (acceptor == invite.owner) = true
        · simp only [h2, if_true]
          exact hWF
        · simp only [Bool.not_eq_true] at h2
          simp only [h2, Bool.false_eq_true, if_false]
          cases hex : db.find? (activeAccepted invite.owner acceptor) with
          | some existing =>
            refine CollabWF_map _ _ (fun x => ?_) (CollabWF_map _ _ (fun x => ?_) hWF)
            · by_cases hx : (x.id == invite.id) = true <;> simp [hx]
            · by_cases hx : (x.id == existing.id) = true <;> simp [hx]
          | none =>
            refine CollabWF_map _ _ (fun x => ?_) hWF
            by_cases hx : (x.id == invite.id) = true <;> simp [hx]
  | revokeOp pk actor now =>
    show CollabWF (revoke_invite db pk actor now)
    unfold revoke_invite
    cases hf : db.find? (fun r => r.id == pk && r.owner == actor && r.is_active) with
    | none => exact hWF
    | some inv =>
      refine CollabWF_map _ _ (fun x => ?_) hWF
      by_cases hx : (x.id == pk) = true <;> simp [hx]
  | purge pk actor =>
    show CollabWF (purge_invite db pk actor)
    unfold purge_invite
    cases hf : db.find? (fun r => r.id == pk && r.owner == actor) with
    | none => exact hWF
    | some inv =>
      by_cases ha : inv.is_active = true
      · simp only [ha, if_true]
        exact hWF
      · simp only [Bool.not_eq_true] at ha
        simp only [ha, Bool.false_eq_true, if_false]
        unfold CollabWF at *
        exact List.Nodup.sublist (List.Sublist.map _ (List.filter_sublist db)) hWF
  | updatePerms pk actor ce cd =>
    show CollabWF (update_invite db pk actor ce cd)
    unfold update_invite
    cases hf : db.find? (fun r => r.id == pk && r.owner == actor) with
    | none => exact hWF
    | some inv =>
      by_cases ha : inv.is_active = false
      · simp only [ha, if_true]
        exact hWF
      · simp only [ha, if_false]
        refine CollabWF_map _ _ (fun x => ?_) hWF
        by_cases hx : (x.id == pk) = true <;> simp [hx]

/-- Every operation preserves the at-most-one-active-accepted-per-pair
invariant. -/
theorem applyCollabOp_inv (db : List InventoryCollab) (op : CollabOp)
    (hWF : CollabWF db) (hInv : CollabInvariant db) :
    CollabInvariant (applyCollabOp db op) := by
  cases op with
  | create owner oe em ce cd tok =>
    show CollabInvariant (create_invite db owner oe em ce cd tok)
    unfold create_invite
    by_cases hself : (oe != "" && strLower oe == strLower (pyStrip em)) = true
    · simp only [hself, if_true]
      exact hInv
    · simp only [Bool.not_eq_true] at hself
      simp only [hself, Bool.false_eq_true, if_false]
      intro o c
      rw [List.countP_append]
      have hz : List.countP (activeAccepted o c)
          [{ id := freshCollabId db, owner := owner, collaborator := none,
             invited_email := strLower (pyStrip em), token := tok, can_edit := ce,
             can_delete := cd, is_active := true, accepted_at := none,
             revoked_at := none }] = 0 := by
        simp [activeAccepted]
      rw [hz]
      simpa using hInv o c
  | accept tok acceptor now =>
    show CollabInvariant (accept_invite db tok acceptor now)
    unfold accept_invite
    cases hf : db.find? (fun r => r.token == tok && r.is_active) with
    | none => exact hInv
    | some invite =>
      by_cases h1 : invite.accepted_at.isSome = true
      · simp only [h1, if_true]
        exact hInv
      · simp only [Bool.not_eq_true] at h1
        simp only [h1, Bool.false_eq_true, if_false]
        by_cases h2 : (acceptor == invite.owner) = true
        · simp only [h2, if_true]
          exact hInv
        · simp only [Bool.not_eq_true] at h2
          simp only [h2, Bool.false_eq_true, if_false]
          cases hex : db.find? (activeAccepted invite.owner acceptor) with
          | some existing =>
            intro o c
            have e1 : (db.map (fun r => if r.id == existing.id
                then { r with can_edit := invite.can_edit,
                              can_delete := invite.can_delete } else r)).countP
                  (activeAccepted o c) = db.countP (activeAccepted o c) :=
              countP_map_eq _ _ db (fun x => by
                by_cases hx : (x.id == existing.id) = true <;>
                  simp [hx, activeAccepted])
            calc ((db.map (fun r => if r.id == existing.id
                    then { r with can_edit := invite.can_edit,
                                  can_delete := invite.can_delete } else r)).map
                  (fun r => if r.id == invite.id
                    then { r with is_active := false, revoked_at := some now }
                    else r)).countP (activeAccepted o c)
                ≤ (db.map (fun r => if r.id == existing.id
                    then { r with can_edit := invite.can_edit,
                                  can_delete := invite.can_delete } else r)).countP
                  (activeAccepted o c) := by
                  refine countP_map_le _ _ _ (fun x hx => ?_)
                  by_cases hxi : (x.id == invite.id) = true
                  · simp [hxi, activeAccepted] at hx
                  · simpa [hxi] using hx
              _ = db.countP (activeAccepted o c) := e1
              _ ≤ 1 := hInv o c
          | none =>
            intro o c
            have hmem : invite ∈ db := List.mem_of_find?_eq_some hf
            have hcc : (db.map (fun r => if r.id == invite.id
                then { r with collaborator := some acceptor,
                              accepted_at := some now, is_active := true }
                else r)).countP (activeAccepted o c)
                = db.countP (activeAccepted o c)
                  - (if activeAccepted o c invite then 1 else 0)
                  + (if activeAccepted o c
                      { invite with collaborator := some acceptor,
                                    accepted_at := some now, is_active := true }
                     then 1 else 0) :=
              countP_map_upd (fun r : InventoryCollab => r.id)
                (activeAccepted o c)
                (fun r => { r with collaborator := some acceptor,
                                   accepted_at := some now, is_active := true })
                db hWF hmem
            have hpi : activeAccepted o c invite = false := by
              simp [activeAccepted, h1]
            rw [hcc, hpi]
            by_cases hoc : o = invite.owner ∧ c = acceptor
            · obtain ⟨ho1, hc1⟩ := hoc
              have h0 : db.countP (activeAccepted invite.owner acceptor) = 0 :=
                List.countP_eq_zero.mpr (fun a ha => by
                  have := List.find?_eq_none.mp hex a ha
                  simpa using this)
              rw [ho1, hc1, h0]
              by_cases hgi : activeAccepted invite.owner acceptor
                  { invite with collaborator := some acceptor,
                                accepted_at := some now, is_active := true }
                  = true <;> simp [hgi]
            · have hgi : activeAccepted o c
                  { invite with collaborator := some acceptor,
                                accepted_at := some now, is_active := true }
                  = false := by
                rcases not_and_or.mp hoc with ho' | hc'
                · have hb : (invite.owner == o) = false := by
                    simp only [beq_eq_false_iff_ne, ne_eq]
                    exact fun hq => ho' hq.symm
                  simp [activeAccepted, hb]
                · have hb : ((some acceptor : Option Nat) == some c) = false := by
                    simp only [beq_eq_false_iff_ne, ne_eq, Option.some.injEq]
                    exact fun hq => hc' hq.symm
                  simp [activeAccepted, hb]
              rw [hgi]
              simpa using hInv o c
  | revokeOp pk actor now =>
    show CollabInvariant (revoke_invite db pk actor now)
    unfold revoke_invite
    cases hf : db.find? (fun r => r.id == pk && r.owner == actor && r.is_active) with
    | none => exact hInv
    | some inv =>
      intro o c
      refine le_trans (countP_map_le _ _ _ (fun x hx => ?_)) (hInv o c)
      by_cases hxi : (x.id == pk) = true
      · simp [hxi, activeAccepted] at hx
      · simpa [hxi] using hx
  | purge pk actor =>
    show CollabInvariant (purge_invite db pk actor)
    unfold purge_invite
    cases hf : db.find? (fun r => r.id == pk && r.owner == actor) with
    | none => exact hInv
    | some inv =>
      by_cases ha : inv.is_active = true
      · simp only [ha, if_true]
        exact hInv
      · simp only [Bool.not_eq_true] at ha
        simp only [ha, Bool.false_eq_true, if_false]
        intro o c
        exact le_trans (countP_filter_le _ _ _) (hInv o c)
  | updatePerms pk actor ce cd =>
    show CollabInvariant (update_invite db pk actor ce cd)
    unfold update_invite
    cases hf : db.find? (fun r => r.id == pk && r.owner == actor) with
    | none => exact hInv
    | some inv =>
      by_cases ha : inv.is_active = false
      · simp only [ha, if_true]
        exact hInv
      · dsimp only
        rw [if_neg ha]
        intro o c
        have := countP_map_eq (activeAccepted o c)
          (fun r => if r.id == pk
            then { r with can_edit := ce, can_delete := cd } else r) db
          (fun x => by
            by_cases hx : (x.id == pk) = true <;> simp [hx, activeAccepted])
        rw [this]
        exact hInv o c

/-- C2: For every pair (owner, collaborator), at most one
`InventoryCollab` row with `is_active = true` and `accepted_at` non-null
exists at any time, and this is preserved by every sequence of
`create_invite`, `accept_invite`, `revoke`, `purge` (and permission
update) operations, including repeated accept/revoke cycles. -/
theorem collab_unique_active_accepted (ops : List CollabOp)
    (db : List InventoryCollab) (hWF : CollabWF db)
    (hInv : CollabInvariant db) :
    CollabInvariant (applyCollabOps db ops) := by
  induction ops generalizing db with
  | nil => exact hInv
  | cons op rest ih =>
    exact ih (applyCollabOp db op) (applyCollabOp_WF db op hWF)
      (applyCollabOp_inv db op hWF hInv)

/-- Witness for C2: a concrete history with an invite accepted, a second
invite accepted on top of the existing collaboration, a revocation, a
fresh accept and a purge — the invariant holds at the end. -/
theorem collab_unique_active_accepted_witness :
    CollabInvariant (applyCollabOps []
      [CollabOp.create 1 "owner@x.com" "bob@x.com" true false "t1",
       CollabOp.accept "t1" 2 100,
       CollabOp.create 1 "owner@x.com" "bob@x.com" false true "t2",
       CollabOp.accept "t2" 2 200,
       CollabOp.revokeOp 1 1 300,
       CollabOp.create 1 "owner@x.com" "bob@x.com" true true "t3",
       CollabOp.accept "t3" 2 400,
       CollabOp.purge 1 1]) :=
  collab_unique_active_accepted
    [CollabOp.create 1 "owner@x.com" "bob@x.com" true false "t1",
     CollabOp.accept "t1" 2 100,
     CollabOp.create 1 "owner@x.com" "bob@x.com" false true "t2",
     CollabOp.accept "t2" 2 200,
     CollabOp.revokeOp 1 1 300,
     CollabOp.create 1 "owner@x.com" "bob@x.com" true true "t3",
     CollabOp.accept "t3" 2 400,
     CollabOp.purge 1 1]
    [] (by simp [CollabWF]) (fun o c => by simp)

/-- C3: Accepting an invite while already holding an active accepted
collaboration with the same owner overwrites the existing row's
`can_edit`/`can_delete` with exactly the new invite's values (not an OR
with the old ones), revokes the new invite row, adds no row, and the
revoked invite is not an active collaboration. -/
theorem accept_overwrites_existing_permissions
    (db : List InventoryCollab) (tok : String) (acceptor now : Nat)
    (hWF : CollabWF db) (invite existing : InventoryCollab)
    (hf : db.find? (fun r => r.token == tok && r.is_active) = some invite)
    (hacc : invite.accepted_at = none)
    (hown : (acceptor == invite.owner) = false)
    (hex : db.find? (activeAccepted invite.owner acceptor) = some existing) :
    ((accept_invite db tok acceptor now).find? (fun r => r.id == existing.id)
        = some { existing with can_edit := invite.can_edit,
                               can_delete := invite.can_delete })
    ∧ ((accept_invite db tok acceptor now).find? (fun r => r.id == invite.id)
        = some { invite with is_active := false, revoked_at := some now })
    ∧ (accept_invite db tok acceptor now).length = db.length
    ∧ activeAccepted invite.owner acceptor
        { invite with is_active := false, revoked_at := some now } = false := by
  have hmem_i : invite ∈ db := List.mem_of_find?_eq_some hf
  have hmem_e : existing ∈ db := List.mem_of_find?_eq_some hex
  have hpe : activeAccepted invite.owner acceptor existing = true :=
    List.find?_some hex
  have hne_rows : existing ≠ invite := by
    intro h
    rw [h] at hpe
    simp [activeAccepted, hacc] at hpe
  have hne_id : existing.id ≠ invite.id := fun h =>
    hne_rows (key_inj (fun r : InventoryCollab => r.id) db hWF hmem_e hmem_i h)
  have hbe : (existing.id == invite.id) = false := by simpa using hne_id
  have hbi : (invite.id == existing.id) = false := by
    simpa using fun h => hne_id h.symm
  have heq : accept_invite db tok acceptor now
      = (db.map (fun r => if r.id == existing.id
          then { r with can_edit := invite.can_edit,
                        can_delete := invite.can_delete } else r)).map
        (fun r => if r.id == invite.id
          then { r with is_active := false, revoked_at := some now } else r) := by
    unfold accept_invite
    rw [hf]
    dsimp only
    rw [hacc]
    simp only [Option.isSome_none, Bool.false_eq_true, if_false, hown, hex]
  have hid1 : ∀ x : InventoryCollab,
      ((fun r : InventoryCollab => if r.id == existing.id
        then { r with can_edit := invite.can_edit,
                      can_delete := invite.can_delete } else r) x).id = x.id := by
    intro x
    by_cases hx : (x.id == existing.id) = true <;> simp [hx]
  have hid2 : ∀ x : InventoryCollab,
      ((fun r : InventoryCollab => if r.id == invite.id
        then { r with is_active := false, revoked_at := some now } else r) x).id
        = x.id := by
    intro x
    by_cases hx : (x.id == invite.id) = true <;> simp [hx]
  have hWF1 : CollabWF (db.map (fun r => if r.id == existing.id
      then { r with can_edit := invite.can_edit,
                    can_delete := invite.can_delete } else r)) :=
    CollabWF_map db _ hid1 hWF
  refine ⟨?_, ?_, ?_, ?_⟩
  · rw [heq]
    have hcm := find?_map_comm (fun y : InventoryCollab => y.id == existing.id)
      (fun r : InventoryCollab => if r.id == invite.id
        then { r with is_active := false, revoked_at := some now } else r)
      (db.map (fun r => if r.id == existing.id
        then { r with can_edit := invite.can_edit,
                      can_delete := invite.can_delete } else r))
      (fun x => by by_cases hx : (x.id == invite.id) = true <;> simp [hx])
    rw [hcm]
    have hin : (db.map (fun r => if r.id == existing.id
        then { r with can_edit := invite.can_edit,
                      can_delete := invite.can_delete } else r)).find?
          (fun y => y.id == existing.id)
        = some ((fun r : InventoryCollab => if r.id == existing.id
            then { r with can_edit := invite.can_edit,
                          can_delete := invite.can_delete } else r) existing) :=
      find?_map_upd (fun r : InventoryCollab => r.id) _ db hWF hmem_e hid1
    rw [hin]
    simp [hbe, hne_id]
  · rw [heq]
    have hf1i : (fun r : InventoryCollab => if r.id == existing.id
        then { r with can_edit := invite.can_edit,
                      can_delete := invite.can_delete } else r) invite = invite := by
      simp [hbi]
    have hmem_i1 : invite ∈ db.map (fun r => if r.id == existing.id
        then { r with can_edit := invite.can_edit,
                      can_delete := invite.can_delete } else r) := by
      have := List.mem_map_of_mem (fun r : InventoryCollab => if r.id == existing.id
        then { r with can_edit := invite.can_edit,
                      can_delete := invite.can_delete } else r) hmem_i
      rwa [hf1i] at this
    have hfin : ((db.map (fun r => if r.id == existing.id
        then { r with can_edit := invite.can_edit,
                      can_delete := invite.can_delete } else r)).map
          (fun r => if r.id == invite.id
            then { r with is_active := false, revoked_at := some now } else r)).find?
          (fun y => y.id == invite.id)
        = some ((fun r : InventoryCollab => if r.id == invite.id
            then { r with is_active := false, revoked_at := some now } else r)
            invite) :=
      find?_map_upd (fun r : InventoryCollab => r.id) _ _ hWF1 hmem_i1 hid2
    rw [hfin]
    simp
  · rw [heq]
    simp
  · simp [activeAccepted]

/-- Witness for C3: user 2 already collaborates on owner 1's inventory
with full permissions; accepting a new lower-privilege invite downgrades
the collaboration to the invite's permissions and revokes the invite. -/
theorem accept_overwrites_existing_permissions_witness :
    ((accept_invite
        [⟨1, 1, some 2, "", "t1", true, true, true, some 50, none⟩,
         ⟨2, 1, none, "bob@x.com", "t2", false, false, true, none, none⟩]
        "t2" 2 100).find? (fun r => r.id == 1)
      = some ⟨1, 1, some 2, "", "t1", false, false, true, some 50, none⟩)
    ∧ ((accept_invite
        [⟨1, 1, some 2, "", "t1", true, true, true, some 50, none⟩,
         ⟨2, 1, none, "bob@x.com", "t2", false, false, true, none, none⟩]
        "t2" 2 100).find? (fun r => r.id == 2)
      = some ⟨2, 1, none, "bob@x.com", "t2", false, false, false, none, some 100⟩)
    ∧ (accept_invite
        [⟨1, 1, some 2, "", "t1", true, true, true, some 50, none⟩,
         ⟨2, 1, none, "bob@x.com", "t2", false, false, true, none, none⟩]
        "t2" 2 100).length = 2
    ∧ activeAccepted 1 2
        ⟨2, 1, none, "bob@x.com", "t2", false, false, false, none, some 100⟩
      = false :=
  accept_overwrites_existing_permissions
    [⟨1, 1, some 2, "", "t1", true, true, true, some 50, none⟩,
     ⟨2, 1, none, "bob@x.com", "t2", false, false, true, none, none⟩]
    "t2" 2 100 (by simp [CollabWF])
    ⟨2, 1, none, "bob@x.com", "t2", false, false, true, none, none⟩
    ⟨1, 1, some 2, "", "t1", true, true, true, some 50, none⟩
    rfl rfl rfl rfl

/-- C10: Presenting the token of an invite that is active and already
accepted changes nothing: the table is returned unchanged, whoever the
caller is — no row is created or modified and no access is granted. -/
theorem accept_already_accepted_noop
    (db : List InventoryCollab) (tok : String) (acceptor now : Nat)
    (invite : InventoryCollab)
    (hf : db.find? (fun r => r.token == tok && r.is_active) = some invite)
    (hacc : invite.accepted_at.isSome = true) :
    accept_invite db tok acceptor now = db := by
  unfold accept_invite
  rw [hf]
  dsimp only
  rw [hacc]
  simp

/-- Witness for C10: a stranger (user 99) presenting the token of an
already-accepted collaboration leaves the table unchanged. -/
theorem accept_already_accepted_noop_witness :
    accept_invite
      [⟨1, 1, some 2, "bob@x.com", "t1", true, false, true, some 50, none⟩]
      "t1" 99 123
      = [⟨1, 1, some 2, "bob@x.com", "t1", true, false, true, some 50, none⟩] :=
  accept_already_accepted_noop
    [⟨1, 1, some 2, "bob@x.com", "t1", true, false, true, some 50, none⟩]
    "t1" 99 123
    ⟨1, 1, some 2, "bob@x.com", "t1", true, false, true, some 50, none⟩
    rfl rfl

/-! ## Owner resolution (`inventory/views/helpers.py`,
`get_owner_from_request`) -/

/-- Result of owner resolution: the effective owner, or the `Http404`
exception with its message.  The routed callers run this inside
`try: ... except Exception`, so the exception — and its message — is
handled by them, not by the framework's 404 machinery. -/
inductive OwnerResult where
  | ok (userId : Nat)
  | http404 (msg : String)
deriving Repr, DecidableEq

/-- Embeds `get_owner_from_request`: `viewer` is the authenticated requester,
`ownerParam` the optional `?owner=` id (absent or empty → `none`),
`users` the ids of existing users.  No parameter (or the viewer's own
id): the viewer.  Unknown id: `Http404("Owner not found")`.  Otherwise
an active accepted collaboration `(owner=candidate,
collaborator=viewer)` is required; its absence is
`Http404("Not allowed to view this inventory")`. -/
def get_owner_from_request (users : List Nat) (collabs : List InventoryCollab)
    (viewer : Nat) (ownerParam : Option Nat) : OwnerResult :=
  match ownerParam with
  | none => .ok viewer
  | some oid =>
      if users.contains oid = false then .http404 "Owner not found"
      else if oid == viewer then .ok viewer
      else if collabs.any (activeAccepted oid viewer) then .ok oid
      else .http404 "Not allowed to view this inventory"

/-- Response of the `inventory_list` view as seen by the client: the
rendered inventory page, or — when an exception (including the
`Http404` raised by owner resolution) reaches the view's
`except Exception` handler — a 302 redirect carrying the flashed
message built from `str(e)`. -/
inductive ListResponse where
  | page (owner : Nat)
  | redirectWithFlash (msg : String)
deriving Repr, DecidableEq

/-- Embeds the owner-resolution and exception-handling skeleton of
`inventory_list` (`inventory/views/inventory.py`): the view body runs
inside `try: ... except Exception as e`, whose handler calls
`messages.error(request, f"An error occurred: ..." )` with `str(e)`
interpolated and redirects to the list.  The queryset, sorting,
pagination and permission-flag body of the view (not at issue in the
claim) is elided. -/
def inventory_list (users : List Nat) (collabs : List InventoryCollab)
    (viewer : Nat) (ownerParam : Option Nat) : ListResponse :=
  match get_owner_from_request users collabs viewer ownerParam with
  | .ok u => .page u
  | .http404 m => .redirectWithFlash ("An error occurred: " ++ m)

/-- Counterexample to C6 as stated: the two failure cases do *not*
produce the same outcome for the viewer.  `get_owner_from_request`
raises `Http404` with two different messages, and `inventory_list`
catches the exception with `except Exception` and flashes
`str(e)` to the viewer before a 302 redirect — so a request for a
nonexistent owner (99) and one for an existing owner who granted
nothing (3) are distinguishable. -/
theorem owner_not_found_distinguishable_cex :
    inventory_list [1, 2, 3]
        [⟨1, 2, some 1, "", "t", true, false, true, some 5, none⟩] 1 (some 99)
      = ListResponse.redirectWithFlash "An error occurred: Owner not found"
    ∧ inventory_list [1, 2, 3]
        [⟨1, 2, some 1, "", "t", true, false, true, some 5, none⟩] 1 (some 3)
      = ListResponse.redirectWithFlash
          "An error occurred: Not allowed to view this inventory"
    ∧ inventory_list [1, 2, 3]
        [⟨1, 2, some 1, "", "t", true, false, true, some 5, none⟩] 1 (some 99)
      ≠ inventory_list [1, 2, 3]
        [⟨1, 2, some 1, "", "t", true, false, true, some 5, none⟩] 1 (some 3) := by
  refine ⟨rfl, rfl, by decide⟩

/-- C6 (amended): Owner resolution returns the viewer when no owner is
requested or the requested owner is the viewer; for another requested
owner it succeeds exactly when the owner exists and an active accepted
collaboration `(owner, viewer)` exists.  Both failure cases raise the
same exception type (`Http404`), but with different messages, and the
routed caller `inventory_list` catches the exception and flashes
`"An error occurred: " ++ str(e)` to the viewer with a redirect — so
the viewer *can* distinguish a nonexistent owner from an existing owner
who has not granted access. -/
theorem owner_resolution_spec (users : List Nat)
    (collabs : List InventoryCollab) (viewer : Nat) :
    (get_owner_from_request users collabs viewer none = OwnerResult.ok viewer)
    ∧ (∀ oid, users.contains oid = true → oid = viewer →
        get_owner_from_request users collabs viewer (some oid)
          = OwnerResult.ok viewer)
    ∧ (∀ oid, get_owner_from_request users collabs viewer (some oid)
          = OwnerResult.ok oid
        ↔ users.contains oid = true
          ∧ (oid = viewer ∨ collabs.any (activeAccepted oid viewer) = true))
    ∧ (∀ oid, users.contains oid = false →
        get_owner_from_request users collabs viewer (some oid)
            = OwnerResult.http404 "Owner not found"
        ∧ inventory_list users collabs viewer (some oid)
            = ListResponse.redirectWithFlash "An error occurred: Owner not found")
    ∧ (∀ oid, users.contains oid = true → oid ≠ viewer →
        collabs.any (activeAccepted oid viewer) = false →
        get_owner_from_request users collabs viewer (some oid)
            = OwnerResult.http404 "Not allowed to view this inventory"
        ∧ inventory_list users collabs viewer (some oid)
            = ListResponse.redirectWithFlash
                "An error occurred: Not allowed to view this inventory") := by
  refine ⟨rfl, ?_, ?_, ?_, ?_⟩
  · intro oid hc hov
    have hm : oid ∈ users := by simpa using hc
    subst hov
    simp [get_owner_from_request, hm]
  · intro oid
    unfold get_owner_from_request
    by_cases hm : oid ∈ users
    · by_cases hov : oid = viewer
      · subst hov
        simp [hm]
      · by_cases hany : ∃ x ∈ collabs, activeAccepted oid viewer x = true
        · simp [hm, hov, hany, List.any_eq_true]
        · simp [hm, hov, hany, List.any_eq_true]
    · simp [hm]
  · intro oid hc
    have hnm : oid ∉ users := by simpa using hc
    have hres : get_owner_from_request users collabs viewer (some oid)
        = OwnerResult.http404 "Owner not found" := by
      simp [get_owner_from_request, hnm]
    exact ⟨hres, by simp [inventory_list, hres]⟩
  · intro oid hc hne hany
    have hm : oid ∈ users := by simpa using hc
    have hnany : ¬ ∃ x ∈ collabs, activeAccepted oid viewer x = true := by
      rw [← List.any_eq_true]
      simp [hany]
    have hres : get_owner_from_request users collabs viewer (some oid)
        = OwnerResult.http404 "Not allowed to view this inventory" := by
      simp [get_owner_from_request, hm, hne, hnany]
    exact ⟨hres, by simp [inventory_list, hres]⟩

/-- Witness for C6 (amended) on a concrete state: users 1, 2, 3; owner
2 has granted viewer 1 an active accepted collaboration, owner 3 has
not, and owner 99 does not exist.  The viewer resolves itself and owner
2; owner 99 yields the flashed "Owner not found" redirect and owner 3
the flashed "Not allowed to view this inventory" redirect. -/
theorem owner_resolution_spec_witness :
    (get_owner_from_request [1, 2, 3]
        [⟨1, 2, some 1, "", "t", true, false, true, some 5, none⟩] 1 none
      = OwnerResult.ok 1)
    ∧ (get_owner_from_request [1, 2, 3]
        [⟨1, 2, some 1, "", "t", true, false, true, some 5, none⟩] 1 (some 2)
      = OwnerResult.ok 2)
    ∧ (inventory_list [1, 2, 3]
        [⟨1, 2, some 1, "", "t", true, false, true, some 5, none⟩] 1 (some 99)
      = ListResponse.redirectWithFlash "An error occurred: Owner not found")
    ∧ (inventory_list [1, 2, 3]
        [⟨1, 2, some 1, "", "t", true, false, true, some 5, none⟩] 1 (some 3)
      = ListResponse.redirectWithFlash
          "An error occurred: Not allowed to view this inventory") := by
  refine ⟨?_, ?_, ?_, ?_⟩
  · exact (owner_resolution_spec [1, 2, 3]
      [⟨1, 2, some 1, "", "t", true, false, true, some 5, none⟩] 1).1
  · exact ((owner_resolution_spec [1, 2, 3]
      [⟨1, 2, some 1, "", "t", true, false, true, some 5, none⟩] 1).2.2.1 2).mpr
      ⟨by decide, Or.inr (by decide)⟩
  · exact ((owner_resolution_spec [1, 2, 3]
      [⟨1, 2, some 1, "", "t", true, false, true, some 5, none⟩] 1).2.2.2.1 99
      (by decide)).2
  · exact ((owner_resolution_spec [1, 2, 3]
      [⟨1, 2, some 1, "", "t", true, false, true, some 5, none⟩] 1).2.2.2.2 3
      (by decide) (by decide) (by decide)).2

/-! ## Lookup rate limiter (`inventory/views/api.py`, `_rate_limit_ok`;
limits from `inventory/constants.py`) -/

def LOOKUP_LIMIT_PER_MIN : Nat := 60
def LOOKUP_LIMIT_PER_IP : Nat := 120
def LOOKUP_WINDOW_SECONDS : Nat := 60

/-- A counter key of the shared cache.  The Python code builds string
keys from the two distinct literal prefixes for the user scope and the
ip scope, followed by the identity and the window bucket; the sum type
captures exactly that keyspace. -/
inductive RLKey where
  | user (id bucket : Nat)
  | ip (addr : String) (bucket : Nat)
deriving DecidableEq, Repr

/-- The shared counter store (TTL elided: all claims are about a single
window). -/
abbrev Counters := List (RLKey × Nat)

def cacheGet (st : Counters) (k : RLKey) : Option Nat :=
  (st.find? (fun p => decide (p.1 = k))).map (fun p => p.2)

/-- Embeds `cache.add(key, v, timeout)`: set only when the key is absent. -/
def cacheAdd (st : Counters) (k : RLKey) (v : Nat) : Counters :=
  if (cacheGet st k).isSome then st else st ++ [(k, v)]

/-- Embeds `cache.incr(key)`; the `ValueError` fallback of the Python code
(`cache.set(key, 1)`) is the absent-key branch. -/
def cacheIncr (st : Counters) (k : RLKey) : Nat × Counters :=
  match cacheGet st k with
  | some v => (v + 1, st.map (fun p => if p.1 = k then (p.1, v + 1) else p))
  | none => (1, st ++ [(k, 1)])

/-- Embeds `_rate_limit_ok(user_id, request)`: add-then-increment the per-user
counter of the current bucket; if it exceeds the per-user limit, answer
false at once; otherwise add-then-increment the per-IP counter and
require it within the per-IP limit. -/
def rate_limit_ok (st : Counters) (userId : Nat) (ipAddr : String)
    (bucket : Nat) : Bool × Counters :=
  let st1 := cacheAdd st (RLKey.user userId bucket) 0
  let r1 := cacheIncr st1 (RLKey.user userId bucket)
  if r1.1 > LOOKUP_LIMIT_PER_MIN then (false, r1.2)
  else
    let st3 := cacheAdd r1.2 (RLKey.ip ipAddr bucket) 0
    let r2 := cacheIncr st3 (RLKey.ip ipAddr bucket)
    if r2.1 > LOOKUP_LIMIT_PER_IP then (false, r2.2)
    else (true, r2.2)

/-- The stored count, defaulting to zero for an absent key. -/
def getCount (st : Counters) (k : RLKey) : Nat :=
  (cacheGet st k).getD 0

theorem cacheGet_append (l1 l2 : Counters) (k : RLKey) :
    cacheGet (l1 ++ l2) k
      = ((l1.find? (fun p => decide (p.1 = k))).or
          (l2.find? (fun p => decide (p.1 = k)))).map (fun p => p.2) := by
  unfold cacheGet
  rw [List.find?_append]

theorem cacheGet_add_same (st : Counters) (k : RLKey) (v : Nat) :
    cacheGet (cacheAdd st k v) k = some ((cacheGet st k).getD v) := by
  unfold cacheAdd
  cases hg : cacheGet st k with
  | some w => simp [hg]
  | none =>
      simp only [hg, Option.isSome_none, Bool.false_eq_true, if_false]
      rw [cacheGet_append]
      unfold cacheGet at hg
      cases hf : st.find? (fun p => decide (p.1 = k)) with
      | some e => simp [hf] at hg
      | none => simp [hf, List.find?_cons]

theorem cacheGet_add_ne (st : Counters) (k k' : RLKey) (v : Nat)
    (h : k' ≠ k) : cacheGet (cacheAdd st k v) k' = cacheGet st k' := by
  unfold cacheAdd
  by_cases hg : (cacheGet st k).isSome = true
  · simp [hg]
  · simp only [hg, Bool.false_eq_true, if_false]
    rw [cacheGet_append]
    cases hf : st.find? (fun p => decide (p.1 = k')) with
    | some e => simp [cacheGet, hf]
    | none => simp [cacheGet, hf, List.find?_cons, h, Ne.symm h]

theorem cacheIncr_fst (st : Counters) (k : RLKey) :
    (cacheIncr st k).1 = getCount st k + 1 := by
  unfold cacheIncr getCount
  cases hg : cacheGet st k <;> simp [hg]

theorem cacheGet_incr_same (st : Counters) (k : RLKey) :
    cacheGet (cacheIncr st k).2 k = some (getCount st k + 1) := by
  unfold cacheIncr getCount
  cases hg : cacheGet st k with
  | some v =>
      simp only [hg, Option.getD_some]
      have hcm := find?_map_comm (fun p : RLKey × Nat => decide (p.1 = k))
        (fun p => if p.1 = k then (p.1, v + 1) else p) st
        (fun p => by by_cases hp : p.1 = k <;> simp [hp])
      unfold cacheGet
      rw [hcm]
      unfold cacheGet at hg
      cases hf : st.find? (fun p => decide (p.1 = k)) with
      | none => simp [hf] at hg
      | some e =>
          have he : e.1 = k := by
            have := List.find?_some hf
            simpa using this
          have hev : e.2 = v := by
            rw [hf] at hg
            simpa using hg
          simp [hf, he, hev]
  | none =>
      simp only [hg, Option.getD_none]
      unfold cacheGet
      rw [List.find?_append]
      unfold cacheGet at hg
      cases hf : st.find? (fun p => decide (p.1 = k)) with
      | some e => simp [hf] at hg
      | none => simp [hf, List.find?_cons]

theorem cacheGet_incr_ne (st : Counters) (k k' : RLKey) (h : k' ≠ k) :
    cacheGet (cacheIncr st k).2 k' = cacheGet st k' := by
  unfold cacheIncr
  cases hg : cacheGet st k with
  | some v =>
      have hcm := find?_map_comm (fun p : RLKey × Nat => decide (p.1 = k'))
        (fun p => if p.1 = k then (p.1, v + 1) else p) st
        (fun p => by by_cases hp : p.1 = k <;> simp [hp])
      unfold cacheGet
      rw [hcm]
      cases hf : st.find? (fun p => decide (p.1 = k')) with
      | none => simp [hf]
      | some e =>
          have he : e.1 = k' := by
            have := List.find?_some hf
            simpa using this
          simp [hf, he, h]
  | none =>
      unfold cacheGet
      rw [List.find?_append]
      cases hf : st.find? (fun p => decide (p.1 = k')) with
      | some e => simp [hf]
      | none => simp [hf, List.find?_cons, h, Ne.symm h]

/-- Counterexample to C7 as stated: with the per-user counter already at
the limit (60 calls this window), the next call increments the per-user
counter to 61 and returns false *without touching the per-IP counter* —
so "both the per-user counter and the per-IP counter are incremented" on
every call is false of the code. -/
theorem rate_limit_skips_ip_counter_cex :
    (rate_limit_ok [(RLKey.user 1 0, 60)] 1 "203.0.113.7" 0).1 = false
    ∧ cacheGet (rate_limit_ok [(RLKey.user 1 0, 60)] 1 "203.0.113.7" 0).2
        (RLKey.ip "203.0.113.7" 0) = none
    ∧ cacheGet (rate_limit_ok [(RLKey.user 1 0, 60)] 1 "203.0.113.7" 0).2
        (RLKey.user 1 0) = some 61 := by
  refine ⟨?_, ?_, ?_⟩ <;> rfl

/-- C7 (amended): Each call increments the per-user counter of the
current window bucket.  If the incremented per-user count exceeds 60 the
call answers false at once and the per-IP counter is *not* incremented.
Otherwise the per-IP counter is incremented as well and the call answers
true exactly when the incremented per-IP count is within 120. -/
theorem rate_limit_ok_spec (st : Counters) (userId : Nat) (ipAddr : String)
    (bucket : Nat) :
    (cacheGet (rate_limit_ok st userId ipAddr bucket).2
        (RLKey.user userId bucket)
        = some (getCount st (RLKey.user userId bucket) + 1))
    ∧ (getCount st (RLKey.user userId bucket) + 1 > 60 →
        (rate_limit_ok st userId ipAddr bucket).1 = false
        ∧ cacheGet (rate_limit_ok st userId ipAddr bucket).2
            (RLKey.ip ipAddr bucket)
          = cacheGet st (RLKey.ip ipAddr bucket))
    ∧ (getCount st (RLKey.user userId bucket) + 1 ≤ 60 →
        cacheGet (rate_limit_ok st userId ipAddr bucket).2
            (RLKey.ip ipAddr bucket)
          = some (getCount st (RLKey.ip ipAddr bucket) + 1)
        ∧ ((rate_limit_ok st userId ipAddr bucket).1 = true
            ↔ getCount st (RLKey.ip ipAddr bucket) + 1 ≤ 120)) := by
  have hneui : RLKey.ip ipAddr bucket ≠ RLKey.user userId bucket := by
    intro h; cases h
  have hneiu : RLKey.user userId bucket ≠ RLKey.ip ipAddr bucket := by
    intro h; cases h
  have hga : getCount (cacheAdd st (RLKey.user userId bucket) 0)
      (RLKey.user userId bucket) = getCount st (RLKey.user userId bucket) := by
    unfold getCount
    rw [cacheGet_add_same]
    simp
  have hu2 : cacheGet (cacheIncr (cacheAdd st (RLKey.user userId bucket) 0)
      (RLKey.user userId bucket)).2 (RLKey.user userId bucket)
      = some (getCount st (RLKey.user userId bucket) + 1) := by
    rw [cacheGet_incr_same, hga]
  have hi2 : cacheGet (cacheIncr (cacheAdd st (RLKey.user userId bucket) 0)
      (RLKey.user userId bucket)).2 (RLKey.ip ipAddr bucket)
      = cacheGet st (RLKey.ip ipAddr bucket) := by
    rw [cacheGet_incr_ne _ _ _ hneui, cacheGet_add_ne _ _ _ _ hneui]
  by_cases hcase : getCount st (RLKey.user userId bucket) + 1 > 60
  · have hru : rate_limit_ok st userId ipAddr bucket
        = (false, (cacheIncr (cacheAdd st (RLKey.user userId bucket) 0)
            (RLKey.user userId bucket)).2) := by
      unfold rate_limit_ok
      dsimp only
      rw [cacheIncr_fst, hga]
      simp only [LOOKUP_LIMIT_PER_MIN]
      rw [if_pos hcase]
    refine ⟨?_, fun _ => ⟨?_, ?_⟩, fun hle => absurd hle (by omega)⟩
    · rw [hru]
      exact hu2
    · rw [hru]
    · rw [hru]
      exact hi2
  · have hgai : getCount (cacheAdd (cacheIncr (cacheAdd st
        (RLKey.user userId bucket) 0) (RLKey.user userId bucket)).2
        (RLKey.ip ipAddr bucket) 0) (RLKey.ip ipAddr bucket)
        = getCount st (RLKey.ip ipAddr bucket) := by
      unfold getCount
      rw [cacheGet_add_same, hi2]
      simp [getCount]
    have hie : cacheGet (cacheIncr (cacheAdd (cacheIncr (cacheAdd st
        (RLKey.user userId bucket) 0) (RLKey.user userId bucket)).2
        (RLKey.ip ipAddr bucket) 0) (RLKey.ip ipAddr bucket)).2
        (RLKey.ip ipAddr bucket)
        = some (getCount st (RLKey.ip ipAddr bucket) + 1) := by
      rw [cacheGet_incr_same, hgai]
    have hue : cacheGet (cacheIncr (cacheAdd (cacheIncr (cacheAdd st
        (RLKey.user userId bucket) 0) (RLKey.user userId bucket)).2
        (RLKey.ip ipAddr bucket) 0) (RLKey.ip ipAddr bucket)).2
        (RLKey.user userId bucket)
        = some (getCount st (RLKey.user userId bucket) + 1) := by
      rw [cacheGet_incr_ne _ _ _ hneiu, cacheGet_add_ne _ _ _ _ hneiu, hu2]
    have hru : rate_limit_ok st userId ipAddr bucket
        = (if getCount st (RLKey.ip ipAddr bucket) + 1 > 120 then false
            else true,
           (cacheIncr (cacheAdd (cacheIncr (cacheAdd st
              (RLKey.user userId bucket) 0) (RLKey.user userId bucket)).2
              (RLKey.ip ipAddr bucket) 0) (RLKey.ip ipAddr bucket)).2) := by
      unfold rate_limit_ok
      dsimp only
      rw [cacheIncr_fst, hga]
      simp only [LOOKUP_LIMIT_PER_MIN, LOOKUP_LIMIT_PER_IP]
      rw [if_neg hcase]
      rw [cacheIncr_fst, hgai]
      by_cases hip : getCount st (RLKey.ip ipAddr bucket) + 1 > 120
      · rw [if_pos hip, if_pos hip]
      · rw [if_neg hip, if_neg hip]
    refine ⟨?_, fun hgt => absurd hgt hcase, fun _ => ⟨?_, ?_⟩⟩
    · rw [hru]
      exact hue
    · rw [hru]
      exact hie
    · rw [hru]
      by_cases hip : getCount st (RLKey.ip ipAddr bucket) + 1 > 120
      · rw [if_pos hip]
        constructor
        · intro h
          cases h
        · intro h
          omega
      · rw [if_neg hip]
        constructor
        · intro _
          omega
        · intro _
          rfl

/-- Witness for C7 (amended): a first call on an empty store sets both
counters to 1 and is allowed. -/
theorem rate_limit_ok_spec_witness :
    cacheGet (rate_limit_ok [] 5 "addr" 0).2 (RLKey.user 5 0) = some 1
    ∧ cacheGet (rate_limit_ok [] 5 "addr" 0).2 (RLKey.ip "addr" 0) = some 1
    ∧ (rate_limit_ok [] 5 "addr" 0).1 = true := by
  have h := rate_limit_ok_spec [] 5 "addr" 0
  refine ⟨h.1, (h.2.2 (by decide)).1, (h.2.2 (by decide)).2.mpr (by decide)⟩

/-! ## Bulk enrichment batch (`inventory/views/api.py`,
`bulk_update_missing_batch`; helpers from `inventory/views/helpers.py`).

External HTTP calls (`fetch_rebrickable_part` requests,
`fetch_bricklink_name` scraping) and the HTML/URL sanitizers (which use
the `bleach` and `urllib` libraries) are oracle function parameters of
the embedding; everything else is translated from the source. -/

def BULK_UPDATE_BATCH_SIZE_DEFAULT : Nat := 50
def BULK_UPDATE_BATCH_SIZE_MIN : Nat := 1
def BULK_UPDATE_BATCH_SIZE_MAX : Nat := 500
def LOG_MESSAGE_MAX_LENGTH : Nat := 200

/-- Embeds `single_part_token`: `to_str` (strip), then the `[0-9A-Za-z]+` full
match; anything else (separators, spaces, empty) yields `""`. -/
def single_part_token (raw : String) : String :=
  let t := pyStrip raw
  if t != "" && t.data.all (fun c => c.isDigit || c.isAlpha) then t else ""

/-- Embeds `digits_if_suffix`: on a full match of digits followed by letters
(e.g. `3684c`), return just the digits; otherwise the token unchanged. -/
def digits_if_suffix (tok : String) : String :=
  let ds := tok.data.takeWhile Char.isDigit
  let rest := tok.data.dropWhile Char.isDigit
  if ds != [] && rest != [] && rest.all Char.isAlpha then String.mk ds else tok

/-- A row of the `RBPart` catalog table. -/
structure RBPart where
  part_num : String
  name : String
  image_url : String
deriving Repr, DecidableEq

/-- The JSON payload of a successful parts-API response. -/
structure ApiPartRes where
  part_num : String
  name : String
  part_img_url : String
deriving Repr, DecidableEq

/-- Outcome of one HTTP GET against the parts API: a network exception
(the caller's attempt counter is not incremented), a non-200 response,
or a 200 with a payload. -/
inductive ApiResp where
  | netError
  | notFound
  | ok (r : ApiPartRes)
deriving Repr, DecidableEq

def apiAttempt : ApiResp → Nat
  | .netError => 0
  | _ => 1

/-- Embeds `fetch_rebrickable_part`: try the exact token, then the
digit-stripped variant if the token has a letter suffix; return the
payload (if any) and the number of attempts that reached the server. -/
def fetch_rebrickable_part (api : String → ApiResp) (tok : String) :
    Option ApiPartRes × Nat :=
  match api tok with
  | .ok r => (some r, 1)
  | r1 =>
      let digits := digits_if_suffix tok
      if digits != tok then
        match api digits with
        | .ok r => (some r, apiAttempt r1 + 1)
        | r2 => (none, apiAttempt r1 + apiAttempt r2)
      else (none, apiAttempt r1)

/-- Python's `a or b` on strings (empty string is falsy). -/
def pyOr (a b : String) : String := if a = "" then b else a

/-- Python truthiness of an optional string. -/
def optTruthy : Option String → Bool
  | some s => s != ""
  | none => false

/-- Embeds `RBPart.objects.update_or_create` keyed by `part_num`. -/
def rbUpsert (l : List RBPart) (pn nm img : String) : List RBPart :=
  if l.any (fun r => r.part_num == pn) then
    l.map (fun r => if r.part_num == pn
      then { r with name := nm, image_url := img } else r)
  else l ++ [⟨pn, nm, img⟩]

/-- The request-scoped environment of a batch call: network oracles,
sanitizer oracles, the resolved API key, and the client identity used by
the rate limiter. -/
structure BatchEnv where
  api : String → ApiResp
  bricklink : String → Option String
  sanitize_text : String → String
  sanitize_url : String → String
  apiKey : String
  ipAddr : String
  bucket : Nat

/-- The mutable state a batch call reads and writes: the inventory
table, the `RBPart` catalog, and the rate-limiter counter store. -/
structure BatchSt where
  items : List InventoryItem
  rbparts : List RBPart
  counters : Counters

/-- The JSON body of a batch response. -/
structure BatchResult where
  done : Bool
  last_id : Nat
  processed : Nat
  updated_names : Nat
  updated_images : Nat
  skipped : Nat
  api_calls : Nat
  messages : List String
deriving Repr, DecidableEq

/-- The loop accumulator of `bulk_update_missing_batch`. -/
structure LoopAcc where
  st : BatchSt
  last_id : Nat
  processed : Nat
  updated_names : Nat
  updated_images : Nat
  skipped : Nat
  api_calls : Nat
  messages : List String

/-- Insertion sort by id — the `order_by("id")` of the selection. -/
def insertById (it : InventoryItem) : List InventoryItem → List InventoryItem
  | [] => [it]
  | x :: xs => if it.id ≤ x.id then it :: x :: xs else x :: insertById it xs

def sortById (l : List InventoryItem) : List InventoryItem :=
  l.foldr insertById []

/-- The row filter of the selection query: owned by the user, name is
the placeholder `unknown` (case-insensitive) or the image is empty, a
part id is present, and the id is past the cursor. -/
def bulkFilter (items : List InventoryItem) (u after_id : Nat) :
    List InventoryItem :=
  items.filter (fun it => it.user == u
    && (strLower it.name == "unknown" || it.image_url == "")
    && it.part_id != ""
    && decide (after_id < it.id))

/-- The selection query of the batch: filter, order by id, take
`batch_size`. -/
def bulkSelect (items : List InventoryItem) (u after_id bs : Nat) :
    List InventoryItem :=
  (sortById (bulkFilter items u after_id)).take bs

/-- Result of the API tier for one item. -/
structure ApiTier where
  part_name : String
  part_img : String
  rbparts : List RBPart
  counters : Counters
  api_calls : Nat

/-- The API tier: only consulted when a needed field is still missing,
an API key is configured and the rate limiter allows; upserts the
(sanitized) payload into the catalog. -/
def apiTier (env : BatchEnv) (u : Nat) (st : BatchSt) (token : String)
    (need_name need_img : Bool) (part_name part_img : String) : ApiTier :=
  if ((need_name && part_name == "") || (need_img && part_img == ""))
      && env.apiKey != "" then
    let rl := rate_limit_ok st.counters u env.ipAddr env.bucket
    if rl.1 then
      let fr := fetch_rebrickable_part env.api token
      match fr.1 with
      | some res =>
          let pn := pyOr res.part_num token
          let nm := env.sanitize_text (pyStrip res.name)
          let img := env.sanitize_url (pyStrip res.part_img_url)
          { part_name := pyOr part_name nm, part_img := pyOr part_img img,
            rbparts := rbUpsert st.rbparts pn nm img, counters := rl.2,
            api_calls := fr.2 }
      | none =>
          { part_name := part_name, part_img := part_img,
            rbparts := st.rbparts, counters := rl.2, api_calls := fr.2 }
    else
      { part_name := part_name, part_img := part_img, rbparts := st.rbparts,
        counters := rl.2, api_calls := 0 }
  else
    { part_name := part_name, part_img := part_img, rbparts := st.rbparts,
      counters := st.counters, api_calls := 0 }

/-- Result of the BrickLink scrape tier for one item. -/
structure BlTier where
  part_name : String
  used_bricklink : Bool
  messages : List String

/-- The scrape tier: name-only fallback, first with the token, then the
digit-stripped variant. -/
def blTier (env : BatchEnv) (iid token : String) (need_name : Bool)
    (part_name : String) : BlTier :=
  if need_name && part_name == "" then
    let bl1 := env.bricklink token
    let digits := digits_if_suffix token
    let bl2 := if !(optTruthy bl1) && digits != token
      then env.bricklink digits else bl1
    if optTruthy bl2 then
      let nm := bl2.getD ""
      { part_name := nm, used_bricklink := true,
        messages := [s!"BrickLink fallback: #{iid} part '{token}' → name='{nm}'. No image/buy available."] }
    else
      { part_name := part_name, used_bricklink := false,
        messages := [s!"Not found on Rebrickable and BrickLink: #{iid} part '{token}'."] }
  else
    { part_name := part_name, used_bricklink := false, messages := [] }

/-- One iteration of the batch loop. -/
def processItem (env : BatchEnv) (u : Nat) (acc : LoopAcc)
    (item : InventoryItem) : LoopAcc :=
  let acc := { acc with last_id := item.id }
  let need_name := strLower (pyStrip item.name) == "unknown"
  let need_img := pyStrip item.image_url == ""
  if !(need_name || need_img) then
    { acc with skipped := acc.skipped + 1 }
  else
    let token := single_part_token item.part_id
    let iid := toString item.id
    if token == "" then
      let pid := pyStrip item.part_id
      { acc with skipped := acc.skipped + 1,
                 messages := acc.messages
                   ++ [s!"Skipped (multiple IDs): #{iid} '{pid}'"] }
    else
      let acc := { acc with processed := acc.processed + 1 }
      let rbOpt := acc.st.rbparts.find? (fun r => r.part_num == token)
      let part_name0 := match rbOpt with
        | some rb => pyStrip rb.name
        | none => ""
      let part_img0 := match rbOpt with
        | some rb => pyStrip rb.image_url
        | none => ""
      let digits := digits_if_suffix token
      let fallback : String × String := match rbOpt with
        | some _ => (part_name0, part_img0)
        | none =>
            if digits != token then
              match acc.st.rbparts.find? (fun r : RBPart => r.part_num == digits) with
              | some rb2 => (pyOr part_name0 (pyStrip rb2.name),
                             pyOr part_img0 (pyStrip rb2.image_url))
              | none => (part_name0, part_img0)
            else (part_name0, part_img0)
      let a := apiTier env u acc.st token need_name need_img
        fallback.1 fallback.2
      let b := blTier env iid token need_name a.part_name
      let changedName := need_name && b.part_name != ""
      let changedImg := need_img && a.part_img != ""
      let nameMsgs : List String :=
        if changedName then
          let nm := b.part_name
          if b.used_bricklink then
            [s!"Updated name via BrickLink: #{iid} '{token}' → '{nm}'"]
          else
            [s!"Updated name: #{iid} '{token}' → '{nm}'"]
        else []
      let imgMsgs : List String :=
        if changedImg then [s!"Updated image from Rebrickable: #{iid} '{token}'"]
        else []
      let item1 := if changedName then { item with name := b.part_name } else item
      let item2 := if changedImg then { item1 with image_url := a.part_img }
        else item1
      let changed := changedName || changedImg
      let items2 := if changed then
          acc.st.items.map (fun x => if x.id == item.id then item2 else x)
        else acc.st.items
      { st := { items := items2, rbparts := a.rbparts, counters := a.counters },
        last_id := acc.last_id,
        processed := acc.processed,
        updated_names := acc.updated_names + (if changedName then 1 else 0),
        updated_images := acc.updated_images + (if changedImg then 1 else 0),
        skipped := acc.skipped + (if changed then 0 else 1),
        api_calls := acc.api_calls + a.api_calls,
        messages := acc.messages ++ b.messages ++ nameMsgs ++ imgMsgs }

/-- Embeds `bulk_update_missing_batch`: clamp the batch size, run the selection
query, answer `done := true` with zeroed counters when it is empty, and
otherwise fold the loop over the selected rows and answer
`done := false`. -/
def run_batch (env : BatchEnv) (st : BatchSt) (u : Nat)
    (after_id bs0 : Nat) : BatchResult × BatchSt :=
  let bs := max BULK_UPDATE_BATCH_SIZE_MIN (min BULK_UPDATE_BATCH_SIZE_MAX bs0)
  let selected := bulkSelect st.items u after_id bs
  if selected.isEmpty then
    ({ done := true, last_id := after_id, processed := 0, updated_names := 0,
       updated_images := 0, skipped := 0, api_calls := 0, messages := [] }, st)
  else
    let acc := selected.foldl (processItem env u)
      { st := st, last_id := after_id, processed := 0, updated_names := 0,
        updated_images := 0, skipped := 0, api_calls := 0, messages := [] }
    ({ done := false, last_id := acc.last_id, processed := acc.processed,
       updated_names := acc.updated_names,
       updated_images := acc.updated_images, skipped := acc.skipped,
       api_calls := acc.api_calls,
       messages := acc.messages.take LOG_MESSAGE_MAX_LENGTH }, acc.st)

/-- A concrete environment with no API key and empty oracles. -/
def cexEnv : BatchEnv :=
  { api := fun _ => ApiResp.netError, bricklink := fun _ => none,
    sanitize_text := fun s => s, sanitize_url := fun s => s,
    apiKey := "", ipAddr := "127.0.0.1", bucket := 0 }

/-- A concrete state with one enrichable item. -/
def cexSt : BatchSt :=
  { items := [⟨1, 1, "Unknown", "3001", "Red", 0, 0, "", ""⟩],
    rbparts := [], counters := [] }

/-- Counterexample to C4 as stated: a batch whose selection returns one
row with `batch_size = 5` — fewer than `batch_size` rows — reports
`done = false`, not `done = true`. -/
theorem bulk_done_cex :
    (run_batch cexEnv cexSt 1 0 5).1.done = false
    ∧ (bulkSelect cexSt.items 1 0
        (max BULK_UPDATE_BATCH_SIZE_MIN
          (min BULK_UPDATE_BATCH_SIZE_MAX 5))).length = 1 := by
  constructor <;> rfl

/-- C4 (amended): `run_batch` reports `done = true` exactly when the
selection query returned *zero* rows; a non-empty batch of fewer than
`batch_size` rows still reports `done = false` (the caller's next call,
with the returned cursor, then gets the empty batch and `done = true`). -/
theorem bulk_done_iff_empty (env : BatchEnv) (st : BatchSt)
    (u after_id bs0 : Nat) :
    (run_batch env st u after_id bs0).1.done = true
      ↔ bulkSelect st.items u after_id
          (max BULK_UPDATE_BATCH_SIZE_MIN
            (min BULK_UPDATE_BATCH_SIZE_MAX bs0)) = [] := by
  unfold run_batch
  dsimp only
  by_cases h : (bulkSelect st.items u after_id
      (max BULK_UPDATE_BATCH_SIZE_MIN
        (min BULK_UPDATE_BATCH_SIZE_MAX bs0))).isEmpty = true
  · rw [if_pos h]
    simp only [List.isEmpty_iff] at h
    simp [h]
  · rw [if_neg h]
    simp only [List.isEmpty_iff] at h
    simp [h]

end BlockShelf
